import Mathlib

/-
Verification of the CacheTemplate in-memory TTL cache (src/main.go).

The cache state is modelled as a total map from string keys to optional
entries, mirroring the Go map `data map[string]CacheItem`.  Machine
integers (`int64` times and ttls) are modelled as `Int`, with the
wrap-around of `time.Now().Unix() + ttl` made explicit by `int64Wrap`.
Each operation takes the clock readings it performs as explicit
arguments: `Set` reads the wall clock twice (once in its existence
check, once when computing the expiration), `Has` reads it once, and
`Get` performs no read of its own beyond the one inside `Has`.
-/

namespace CacheTemplate

/-- The three error signals of the cache, from the string constants
`ErrKeyNotFound`, `ErrKeyExists`, `ErrExpired` in main.go. -/
inductive CacheError where
  | keyNotFound
  | keyExists
  | keyExpired
deriving DecidableEq, Repr

/-- Go struct `CacheItem`: a stored value together with an absolute
expiration timestamp; `expiration = 0` is the never-expires sentinel. -/
structure CacheItem (α : Type) where
  value : α
  expiration : Int
deriving DecidableEq, Repr

/-- The cache's store, Go's `data map[string]CacheItem`. -/
def CacheData (α : Type) : Type := String → Option (CacheItem α)

/-- Two's-complement wrap-around of signed 64-bit addition results. -/
def int64Wrap (x : Int) : Int := (x + 2 ^ 63) % 2 ^ 64 - 2 ^ 63

/-- Go `delete(c.data, key)`. -/
def eraseKey {α : Type} (c : CacheData α) (key : String) : CacheData α :=
  fun k => if k = key then none else c k

/-- Go `c.data[key] = item`. -/
def writeKey {α : Type} (c : CacheData α) (key : String) (item : CacheItem α) :
    CacheData α :=
  fun k => if k = key then some item else c k

/-- The expiration stored by `Set` (main.go lines 63-67): `tWrite + ttl`
as int64 arithmetic when `ttl > 0`, the sentinel 0 otherwise. -/
def setExpiration (ttl tWrite : Int) : Int :=
  if 0 < ttl then int64Wrap (tWrite + ttl) else 0

/-- Go `func (c *Cache) Set(key string, value interface\x7b\x7d, ttl int64) error`
(main.go lines 53-76).  `tCheck` is the clock reading in the existence
check on line 58, `tWrite` the one computing the expiration on line 66.
Returns the store after the call and the returned error. -/
def Cache.Set {α : Type} (c : CacheData α) (key : String) (value : α) (ttl : Int)
    (tCheck tWrite : Int) : CacheData α × Option CacheError :=
  match c key with
  | some d =>
      if d.expiration = 0 ∨ tCheck < d.expiration then
        (c, some CacheError.keyExists)
      else
        (writeKey c key ⟨value, setExpiration ttl tWrite⟩, none)
  | none => (writeKey c key ⟨value, setExpiration ttl tWrite⟩, none)

/-- Go `func (c *Cache) Has(key string) (bool, error)` (main.go lines
100-116).  `now` is the clock reading on line 108.  Returns the store
after the call, the boolean flag and the error. -/
def Cache.Has {α : Type} (c : CacheData α) (key : String) (now : Int) :
    CacheData α × Bool × Option CacheError :=
  match c key with
  | none => (c, false, some CacheError.keyNotFound)
  | some d =>
      if d.expiration ≠ 0 ∧ d.expiration < now then
        (eraseKey c key, false, some CacheError.keyExpired)
      else
        (c, true, none)

/-- Go `func (c *Cache) Get(key string) (interface\x7b\x7d, error)` (main.go
lines 82-94): delegates to `Has`, propagates its error, otherwise reads
`c.data[key].value` again from the store `Has` left behind.  A `none`
value models the `nil` interface returned on the error paths. -/
def Cache.Get {α : Type} (c : CacheData α) (key : String) (now : Int) :
    CacheData α × Option α × Option CacheError :=
  match Cache.Has c key now with
  | (c1, _, some e) => (c1, none, some e)
  | (c1, _, none) => (c1, (c1 key).map CacheItem.value, none)

/-- Go `func NewCache(options ...func(*Cache)) *Cache` (main.go lines
36-46): an empty store with each configuration function applied in
order. -/
def NewCache {α : Type} (options : List (CacheData α → CacheData α)) : CacheData α :=
  options.foldl (fun c option => option c) (fun _ => none)

/-- Concrete keys used by the witnesses below. -/
def keyA : String := "a"

def keyB : String := "b"

def emptyKey : String := ""

theorem int64Wrap_eq_self {x : Int} (h1 : -(2 ^ 63) ≤ x) (h2 : x < 2 ^ 63) :
    int64Wrap x = x := by
  unfold int64Wrap
  omega

theorem writeKey_same {α : Type} (c : CacheData α) (key : String) (item : CacheItem α) :
    writeKey c key item key = some item := by
  simp [writeKey]

/-- A successful `Set` always wrote the new entry. -/
theorem set_success_fst {α : Type} (c : CacheData α) (key : String) (v : α)
    (ttl tCheck tWrite : Int)
    (hsucc : (Cache.Set c key v ttl tCheck tWrite).2 = none) :
    (Cache.Set c key v ttl tCheck tWrite).1
      = writeKey c key ⟨v, setExpiration ttl tWrite⟩ := by
  unfold Cache.Set at hsucc ⊢
  cases hck : c key with
  | none => simp [hck]
  | some d =>
      simp only [hck] at hsucc ⊢
      split at hsucc
      · simp at hsucc
      · split
        · simp_all
        · rfl

/-- `Has` on a live entry mutates nothing and reports `(true, nil)`. -/
theorem has_live {α : Type} (c : CacheData α) (key : String) (d : CacheItem α)
    (now : Int) (hd : c key = some d)
    (hlive : d.expiration = 0 ∨ now ≤ d.expiration) :
    Cache.Has c key now = (c, true, none) := by
  unfold Cache.Has
  simp only [hd]
  rw [if_neg]
  omega

/-- `Get` on a live entry returns its value and mutates nothing. -/
theorem get_live {α : Type} (c : CacheData α) (key : String) (d : CacheItem α)
    (now : Int) (hd : c key = some d)
    (hlive : d.expiration = 0 ∨ now ≤ d.expiration) :
    Cache.Get c key now = (c, some d.value, none) := by
  unfold Cache.Get
  rw [has_live c key d now hd hlive]
  simp [hd]

/-- `Has` on a present entry that is non-sentinel and strictly past
its expiration deletes the key and reports it expired. -/
theorem has_expired {α : Type} (c : CacheData α) (key : String) (d : CacheItem α)
    (now : Int) (hd : c key = some d) (hne : d.expiration ≠ 0)
    (hlt : d.expiration < now) :
    Cache.Has c key now = (eraseKey c key, false, some CacheError.keyExpired) := by
  unfold Cache.Has
  simp only [hd]
  rw [if_pos ⟨hne, hlt⟩]

/-- `Has` on an absent key reports it not found and mutates nothing. -/
theorem has_absent {α : Type} (c : CacheData α) (key : String)
    (now : Int) (hd : c key = none) :
    Cache.Has c key now = (c, false, some CacheError.keyNotFound) := by
  unfold Cache.Has
  simp [hd]

/-- `Set` on a key holding a live entry fails and mutates nothing. -/
theorem set_live_fails {α : Type} (c : CacheData α) (key : String) (d : CacheItem α)
    (v : α) (ttl tCheck tWrite : Int) (hd : c key = some d)
    (hlive : d.expiration = 0 ∨ tCheck < d.expiration) :
    Cache.Set c key v ttl tCheck tWrite = (c, some CacheError.keyExists) := by
  unfold Cache.Set
  simp only [hd]
  rw [if_pos hlive]

/-- `Set` succeeds when the key is absent or every entry it holds is
stale (non-sentinel and at-or-past its expiration at check time). -/
theorem set_stale_succeeds {α : Type} (c : CacheData α) (key : String) (v : α)
    (ttl tCheck tWrite : Int)
    (hstale : ∀ d : CacheItem α, c key = some d →
      d.expiration ≠ 0 ∧ d.expiration ≤ tCheck) :
    Cache.Set c key v ttl tCheck tWrite
      = (writeKey c key ⟨v, setExpiration ttl tWrite⟩, none) := by
  unfold Cache.Set
  cases hck : c key with
  | none => rfl
  | some d =>
      have hs := hstale d hck
      dsimp only
      rw [if_neg]
      omega

/-- `Get` leaves the store exactly as `Has` left it. -/
theorem get_fst_eq_has_fst {α : Type} (c : CacheData α) (key : String) (now : Int) :
    (Cache.Get c key now).1 = (Cache.Has c key now).1 := by
  unfold Cache.Get
  rcases hh : Cache.Has c key now with ⟨c1, b, er⟩
  cases er <;> simp

/-- Concrete stores used by the witnesses below. -/
def cEmpty : CacheData Nat := fun _ => none

def cLive : CacheData Nat := writeKey cEmpty keyA ⟨1, 0⟩

def cStale : CacheData Nat := writeKey cEmpty keyA ⟨1, 3⟩

/-- Claim C6: `Has` is a three-way case split: on an absent key it
returns `(false, KeyNotFound)` and leaves the store unchanged; on a
present entry whose expiration is the non-expiring sentinel or not
earlier than the current time it returns `(true, nil)` and leaves the
store unchanged; on a present non-sentinel entry whose expiration is
strictly earlier than the current time it deletes the entry and
returns `(false, KeyExpired)`. -/
theorem has_three_way_split {α : Type} (c : CacheData α) (key : String) (now : Int) :
    (c key = none → Cache.Has c key now = (c, false, some CacheError.keyNotFound)) ∧
    (∀ d : CacheItem α, c key = some d → (d.expiration = 0 ∨ now ≤ d.expiration) →
      Cache.Has c key now = (c, true, none)) ∧
    (∀ d : CacheItem α, c key = some d → d.expiration ≠ 0 → d.expiration < now →
      Cache.Has c key now = (eraseKey c key, false, some CacheError.keyExpired)) :=
  ⟨fun h => has_absent c key now h,
   fun d hd hlive => has_live c key d now hd hlive,
   fun d hd hne hlt => has_expired c key d now hd hne hlt⟩

theorem has_three_way_split_witness :
    Cache.Has cEmpty keyB 5 = (cEmpty, false, some CacheError.keyNotFound) ∧
    Cache.Has cLive keyA 5 = (cLive, true, none) ∧
    Cache.Has cStale keyA 5 = (eraseKey cStale keyA, false, some CacheError.keyExpired) :=
  ⟨(has_three_way_split cEmpty keyB 5).1 (by decide),
   (has_three_way_split cLive keyA 5).2.1 ⟨1, 0⟩ (by decide) (Or.inl rfl),
   (has_three_way_split cStale keyA 5).2.2 ⟨1, 3⟩ (by decide) (by decide) (by decide)⟩

/-- Claim C7: `Get` fails with exactly the error `Has` produces when
`Has` reports false, and when `Has` reports `(true, nil)`, `Get`
returns the stored value with no error and no state change beyond what
`Has` performed. -/
theorem get_delegates_to_has {α : Type} (c : CacheData α) (key : String) (now : Int) :
    (∀ e : CacheError, (Cache.Has c key now).2.2 = some e →
      Cache.Get c key now = ((Cache.Has c key now).1, none, some e)) ∧
    ((Cache.Has c key now).2 = (true, none) →
      (Cache.Has c key now).1 = c ∧
      ∃ d : CacheItem α, c key = some d ∧
        Cache.Get c key now = (c, some d.value, none)) := by
  constructor
  · intro e he
    unfold Cache.Get
    rcases hh : Cache.Has c key now with ⟨c1, b, er⟩
    rw [hh] at he
    simp only at he
    subst he
    simp
  · intro htrue
    cases hck : c key with
    | none =>
        rw [has_absent c key now hck] at htrue
        simp at htrue
    | some d =>
        by_cases hexp : d.expiration ≠ 0 ∧ d.expiration < now
        · rw [has_expired c key d now hck hexp.1 hexp.2] at htrue
          simp at htrue
        · have hlive : d.expiration = 0 ∨ now ≤ d.expiration := by omega
          refine ⟨by rw [has_live c key d now hck hlive], d, rfl, ?_⟩
          exact get_live c key d now hck hlive

theorem get_delegates_to_has_witness :
    Cache.Get cEmpty keyB 5
      = ((Cache.Has cEmpty keyB 5).1, none, some CacheError.keyNotFound) ∧
    ((Cache.Has cLive keyA 5).1 = cLive ∧
      ∃ d : CacheItem Nat, cLive keyA = some d ∧
        Cache.Get cLive keyA 5 = (cLive, some d.value, none)) :=
  ⟨(get_delegates_to_has cEmpty keyB 5).1 CacheError.keyNotFound (by decide),
   (get_delegates_to_has cLive keyA 5).2 (by decide)⟩

/-- Claim C10: frame property: an operation on key `k` leaves every
other key unchanged: `Set` writes only `k`, `Has` deletes at most `k`,
and `Get` mutates nothing beyond what `Has` did. -/
theorem frame_other_keys {α : Type} (c : CacheData α) (key k2 : String) (v : α)
    (ttl tCheck tWrite now : Int) (hne : k2 ≠ key) :
    (Cache.Set c key v ttl tCheck tWrite).1 k2 = c k2 ∧
    (Cache.Has c key now).1 k2 = c k2 ∧
    (Cache.Get c key now).1 k2 = c k2 := by
  have hw : writeKey c key ⟨v, setExpiration ttl tWrite⟩ k2 = c k2 := by
    simp [writeKey, hne]
  have he : eraseKey c key k2 = c k2 := by
    simp [eraseKey, hne]
  have hhas : (Cache.Has c key now).1 k2 = c k2 := by
    unfold Cache.Has
    cases hck : c key with
    | none => rfl
    | some d =>
        dsimp only
        by_cases hx : d.expiration ≠ 0 ∧ d.expiration < now
        · rw [if_pos hx]
          exact he
        · rw [if_neg hx]
  refine ⟨?_, hhas, ?_⟩
  · unfold Cache.Set
    cases hck : c key with
    | none => exact hw
    | some d =>
        dsimp only
        by_cases hx : d.expiration = 0 ∨ tCheck < d.expiration
        · rw [if_pos hx]
        · rw [if_neg hx]
          exact hw
  · rw [get_fst_eq_has_fst]
    exact hhas

theorem frame_other_keys_witness :
    (Cache.Set cEmpty keyA 7 10 5 5).1 keyB = cEmpty keyB ∧
    (Cache.Has cEmpty keyA 5).1 keyB = cEmpty keyB ∧
    (Cache.Get cEmpty keyA 5).1 keyB = cEmpty keyB :=
  frame_other_keys cEmpty keyA keyB 7 10 5 5 5 (by decide)

/-- Claim C4: after an entry's expiration has elapsed (non-sentinel
expiration strictly before the current time), the first `Has` or `Get`
on that key returns `KeyExpired` and deletes the entry, so any
immediately following `Has` or `Get` on the same key returns
`KeyNotFound`. -/
theorem lazy_deletion_once {α : Type} (c : CacheData α) (key : String)
    (d : CacheItem α) (t1 t2 : Int) (hd : c key = some d)
    (hne : d.expiration ≠ 0) (hexp : d.expiration < t1) :
    Cache.Has c key t1 = (eraseKey c key, false, some CacheError.keyExpired) ∧
    Cache.Get c key t1 = (eraseKey c key, none, some CacheError.keyExpired) ∧
    Cache.Has (eraseKey c key) key t2
      = (eraseKey c key, false, some CacheError.keyNotFound) ∧
    Cache.Get (eraseKey c key) key t2
      = (eraseKey c key, none, some CacheError.keyNotFound) := by
  have hh := has_expired c key d t1 hd hne hexp
  have herase : eraseKey c key key = none := by simp [eraseKey]
  have hh2 := has_absent (eraseKey c key) key t2 herase
  refine ⟨hh, ?_, hh2, ?_⟩
  · unfold Cache.Get
    rw [hh]
  · unfold Cache.Get
    rw [hh2]

theorem lazy_deletion_once_witness :
    Cache.Has cStale keyA 5 = (eraseKey cStale keyA, false, some CacheError.keyExpired) ∧
    Cache.Get cStale keyA 5 = (eraseKey cStale keyA, none, some CacheError.keyExpired) ∧
    Cache.Has (eraseKey cStale keyA) keyA 6
      = (eraseKey cStale keyA, false, some CacheError.keyNotFound) ∧
    Cache.Get (eraseKey cStale keyA) keyA 6
      = (eraseKey cStale keyA, none, some CacheError.keyNotFound) :=
  lazy_deletion_once cStale keyA ⟨1, 3⟩ 5 6 (by decide) (by decide) (by decide)

/-- Claim C5: after `Set(k, v, 0)` succeeds, `Get(k)` at any later time
(absent an intervening overwrite) returns `v` without error: ttl 0
stores the non-expiring sentinel, which the expiration check never
treats as expired. -/
theorem never_expiring_ttl_zero {α : Type} (c : CacheData α) (key : String) (v : α)
    (tCheck tWrite : Int)
    (hsucc : (Cache.Set c key v 0 tCheck tWrite).2 = none) :
    (Cache.Set c key v 0 tCheck tWrite).1 key = some ⟨v, 0⟩ ∧
    ∀ tLater : Int,
      Cache.Get (Cache.Set c key v 0 tCheck tWrite).1 key tLater
        = ((Cache.Set c key v 0 tCheck tWrite).1, some v, none) := by
  have h1 := set_success_fst c key v 0 tCheck tWrite hsucc
  have hexp : setExpiration 0 tWrite = 0 := by
    unfold setExpiration
    rw [if_neg (by omega : ¬(0:Int) < 0)]
  have hkey : (Cache.Set c key v 0 tCheck tWrite).1 key = some ⟨v, 0⟩ := by
    rw [h1, writeKey_same, hexp]
  exact ⟨hkey, fun t => get_live _ key ⟨v, 0⟩ t hkey (Or.inl rfl)⟩

theorem never_expiring_ttl_zero_witness :
    (Cache.Set cEmpty keyA 1 0 5 5).1 keyA = some ⟨1, 0⟩ ∧
    Cache.Get (Cache.Set cEmpty keyA 1 0 5 5).1 keyA 1000000000
      = ((Cache.Set cEmpty keyA 1 0 5 5).1, some 1, none) :=
  ⟨(never_expiring_ttl_zero cEmpty keyA 1 5 5 (by decide)).1,
   (never_expiring_ttl_zero cEmpty keyA 1 5 5 (by decide)).2 1000000000⟩

/-- Claim C9: for every ttl less than or equal to 0 — including the
negative values the spec's interface does not cover — a successful
`Set` stores the non-expiring sentinel 0, so the entry never expires
and `Get` returns its value without error at any later time. -/
theorem nonpositive_ttl_never_expires {α : Type} (c : CacheData α) (key : String)
    (v : α) (ttl tCheck tWrite : Int) (httl : ttl ≤ 0)
    (hsucc : (Cache.Set c key v ttl tCheck tWrite).2 = none) :
    (Cache.Set c key v ttl tCheck tWrite).1 key = some ⟨v, 0⟩ ∧
    ∀ tLater : Int,
      Cache.Get (Cache.Set c key v ttl tCheck tWrite).1 key tLater
        = ((Cache.Set c key v ttl tCheck tWrite).1, some v, none) := by
  have h1 := set_success_fst c key v ttl tCheck tWrite hsucc
  have hexp : setExpiration ttl tWrite = 0 := by
    unfold setExpiration
    rw [if_neg (by omega : ¬0 < ttl)]
  have hkey : (Cache.Set c key v ttl tCheck tWrite).1 key = some ⟨v, 0⟩ := by
    rw [h1, writeKey_same, hexp]
  exact ⟨hkey, fun t => get_live _ key ⟨v, 0⟩ t hkey (Or.inl rfl)⟩

theorem nonpositive_ttl_never_expires_witness :
    (Cache.Set cEmpty keyA 1 (-5) 5 5).1 keyA = some ⟨1, 0⟩ ∧
    Cache.Get (Cache.Set cEmpty keyA 1 (-5) 5 5).1 keyA 1000000000
      = ((Cache.Set cEmpty keyA 1 (-5) 5 5).1, some 1, none) :=
  ⟨(nonpositive_ttl_never_expires cEmpty keyA 1 (-5) 5 5 (by omega) (by decide)).1,
   (nonpositive_ttl_never_expires cEmpty keyA 1 (-5) 5 5 (by omega) (by decide)).2 1000000000⟩

/-- Claim C1: if `Set(k, v1, ttl)` succeeded with ttl designating
non-expiration (ttl = 0) or a not-yet-elapsed window (current time
still strictly before the stored expiration, with `tWrite + ttl` in
int64 range), then a later `Set(k, v2, ttl2)` fails with `KeyExists`
and performs no mutation, and `Get(k)` still returns `v1`. -/
theorem no_clobber_while_live {α : Type} (c : CacheData α) (key : String)
    (v1 v2 : α) (ttl ttl2 t1 t1w t2 t2w : Int)
    (hsucc : (Cache.Set c key v1 ttl t1 t1w).2 = none)
    (hwin : ttl = 0 ∨
      (0 < ttl ∧ -(2 ^ 63) ≤ t1w + ttl ∧ t1w + ttl < 2 ^ 63 ∧ t2 < t1w + ttl)) :
    Cache.Set ((Cache.Set c key v1 ttl t1 t1w).1) key v2 ttl2 t2 t2w
      = ((Cache.Set c key v1 ttl t1 t1w).1, some CacheError.keyExists) ∧
    Cache.Get ((Cache.Set c key v1 ttl t1 t1w).1) key t2
      = ((Cache.Set c key v1 ttl t1 t1w).1, some v1, none) := by
  have h1 := set_success_fst c key v1 ttl t1 t1w hsucc
  have hkey : (Cache.Set c key v1 ttl t1 t1w).1 key
      = some ⟨v1, setExpiration ttl t1w⟩ := by
    rw [h1, writeKey_same]
  have hstrict : setExpiration ttl t1w = 0 ∨ t2 < setExpiration ttl t1w := by
    unfold setExpiration
    rcases hwin with h0 | ⟨hpos, hlo, hhi, hlt⟩
    · left
      rw [if_neg (by omega : ¬0 < ttl)]
    · right
      rw [if_pos hpos, int64Wrap_eq_self hlo hhi]
      exact hlt
  exact ⟨set_live_fails _ key ⟨v1, setExpiration ttl t1w⟩ v2 ttl2 t2 t2w hkey hstrict,
    get_live _ key ⟨v1, setExpiration ttl t1w⟩ t2 hkey (hstrict.imp id le_of_lt)⟩

theorem no_clobber_while_live_witness :
    Cache.Set ((Cache.Set cEmpty keyA 1 10 5 5).1) keyA 2 100 8 8
      = ((Cache.Set cEmpty keyA 1 10 5 5).1, some CacheError.keyExists) ∧
    Cache.Get ((Cache.Set cEmpty keyA 1 10 5 5).1) keyA 8
      = ((Cache.Set cEmpty keyA 1 10 5 5).1, some 1, none) :=
  no_clobber_while_live cEmpty keyA 1 2 10 100 5 5 8 8 (by decide)
    (Or.inr (by norm_num))

/-- Claim C3: on a key whose stored entry has a non-sentinel expiration
strictly in the past, `Set(k, v2, ttl2)` succeeds, the replacement
entry's expiration is `tWrite + ttl2` when ttl2 is positive (with the
sum in int64 range) and the sentinel 0 otherwise, and a `Get(k)` before
the new expiration returns `v2`. -/
theorem overwrite_after_expiry {α : Type} (c : CacheData α) (key : String)
    (d : CacheItem α) (v2 : α) (ttl2 t1 t1w t2 : Int)
    (hd : c key = some d) (hne : d.expiration ≠ 0) (hpast : d.expiration < t1)
    (hbound : 0 < ttl2 → -(2 ^ 63) ≤ t1w + ttl2 ∧ t1w + ttl2 < 2 ^ 63)
    (hbefore : ttl2 ≤ 0 ∨ t2 < t1w + ttl2) :
    (Cache.Set c key v2 ttl2 t1 t1w).2 = none ∧
    (Cache.Set c key v2 ttl2 t1 t1w).1 key
      = some ⟨v2, if 0 < ttl2 then t1w + ttl2 else 0⟩ ∧
    Cache.Get (Cache.Set c key v2 ttl2 t1 t1w).1 key t2
      = ((Cache.Set c key v2 ttl2 t1 t1w).1, some v2, none) := by
  have hstale : ∀ d' : CacheItem α, c key = some d' →
      d'.expiration ≠ 0 ∧ d'.expiration ≤ t1 := by
    intro d' hd'
    rw [hd] at hd'
    have hdd : d = d' := Option.some.inj hd'
    subst hdd
    exact ⟨hne, hpast.le⟩
  have hset := set_stale_succeeds c key v2 ttl2 t1 t1w hstale
  have hexpval : setExpiration ttl2 t1w = if 0 < ttl2 then t1w + ttl2 else 0 := by
    unfold setExpiration
    by_cases hp : 0 < ttl2
    · rw [if_pos hp, if_pos hp, int64Wrap_eq_self (hbound hp).1 (hbound hp).2]
    · rw [if_neg hp, if_neg hp]
  have hkey : (Cache.Set c key v2 ttl2 t1 t1w).1 key
      = some ⟨v2, if 0 < ttl2 then t1w + ttl2 else 0⟩ := by
    rw [hset]
    dsimp only
    rw [writeKey_same, hexpval]
  have hlive : (if 0 < ttl2 then t1w + ttl2 else 0) = 0 ∨
      t2 ≤ (if 0 < ttl2 then t1w + ttl2 else 0) := by
    rcases hbefore with h | h
    · left
      rw [if_neg (by omega : ¬0 < ttl2)]
    · by_cases hp : 0 < ttl2
      · right
        rw [if_pos hp]
        omega
      · left
        rw [if_neg hp]
  exact ⟨by rw [hset], hkey,
    get_live _ key ⟨v2, if 0 < ttl2 then t1w + ttl2 else 0⟩ t2 hkey hlive⟩

theorem overwrite_after_expiry_witness :
    (Cache.Set cStale keyA 2 100 5 5).2 = none ∧
    (Cache.Set cStale keyA 2 100 5 5).1 keyA
      = some ⟨2, if (0:Int) < 100 then 5 + 100 else 0⟩ ∧
    Cache.Get (Cache.Set cStale keyA 2 100 5 5).1 keyA 50
      = ((Cache.Set cStale keyA 2 100 5 5).1, some 2, none) :=
  overwrite_after_expiry cStale keyA ⟨1, 3⟩ 2 100 5 5 50 (by decide) (by decide)
    (by decide) (fun _ => by norm_num) (Or.inr (by norm_num))

/-- Claim C8: the empty string is a valid key, never rejected: when no
live entry occupies the empty key, `Set` on it succeeds, and a `Get`
before the new expiration returns the stored value, exactly as for any
other key. -/
theorem empty_key_valid {α : Type} (c : CacheData α) (v : α) (ttl t1 t1w t2 : Int)
    (hnolive : ∀ d : CacheItem α, c emptyKey = some d →
      d.expiration ≠ 0 ∧ d.expiration ≤ t1)
    (hbound : 0 < ttl → -(2 ^ 63) ≤ t1w + ttl ∧ t1w + ttl < 2 ^ 63)
    (hbefore : ttl ≤ 0 ∨ t2 < t1w + ttl) :
    (Cache.Set c emptyKey v ttl t1 t1w).2 = none ∧
    Cache.Get (Cache.Set c emptyKey v ttl t1 t1w).1 emptyKey t2
      = ((Cache.Set c emptyKey v ttl t1 t1w).1, some v, none) := by
  have hset := set_stale_succeeds c emptyKey v ttl t1 t1w hnolive
  have hkey : (Cache.Set c emptyKey v ttl t1 t1w).1 emptyKey
      = some ⟨v, setExpiration ttl t1w⟩ := by
    rw [hset]
    exact writeKey_same c emptyKey _
  have hlive : setExpiration ttl t1w = 0 ∨ t2 ≤ setExpiration ttl t1w := by
    unfold setExpiration
    rcases hbefore with h | h
    · left
      rw [if_neg (by omega : ¬0 < ttl)]
    · by_cases hp : 0 < ttl
      · right
        rw [if_pos hp, int64Wrap_eq_self (hbound hp).1 (hbound hp).2]
        omega
      · left
        rw [if_neg hp]
  exact ⟨by rw [hset], get_live _ emptyKey _ t2 hkey hlive⟩

theorem empty_key_valid_witness :
    (Cache.Set cEmpty emptyKey 9 10 5 5).2 = none ∧
    Cache.Get (Cache.Set cEmpty emptyKey 9 10 5 5).1 emptyKey 8
      = ((Cache.Set cEmpty emptyKey 9 10 5 5).1, some 9, none) :=
  empty_key_valid cEmpty 9 10 5 5 8
    (fun d hd => absurd hd (by simp [cEmpty]))
    (fun _ => by norm_num) (Or.inr (by norm_num))

/-- The store holding a single entry whose expiration timestamp equals
the clock reading used in the counterexample below. -/
def cBoundary : CacheData Nat := writeKey cEmpty keyA ⟨1, 5⟩

/-- Claim C2 counterexample: with the stored expiration equal to the
current time (entry expiring at 5, clock at 5), `Has` reports the entry
live as `(true, nil)`, yet `Set` succeeds and overwrites rather than
failing with `KeyExists` — refuting the claim that `Set` fails exactly
when the entry is live in the sense `Has` defines. -/
theorem set_boundary_counterexample :
    (Cache.Has cBoundary keyA 5).2 = (true, none) ∧
    (Cache.Set cBoundary keyA 2 100 5 5).2 = none ∧
    (Cache.Set cBoundary keyA 2 100 5 5).1 keyA = some ⟨2, 105⟩ := by
  refine ⟨by decide, by decide, ?_⟩
  decide

/-- Claim C2 (amended): `Set` fails with `KeyExists` exactly when the
stored entry's expiration is the non-expiring sentinel or strictly
later than the current time; at the boundary where the expiration
equals the current time, `Has` still reports the entry live but `Set`
succeeds and overwrites. -/
theorem set_keyExists_iff_strictly_live {α : Type} (c : CacheData α) (key : String)
    (v : α) (ttl tCheck tWrite : Int) :
    ((Cache.Set c key v ttl tCheck tWrite).2 = some CacheError.keyExists ↔
      ∃ d : CacheItem α, c key = some d ∧
        (d.expiration = 0 ∨ tCheck < d.expiration)) ∧
    (∀ d : CacheItem α, c key = some d → d.expiration ≠ 0 →
      d.expiration = tCheck →
      (Cache.Has c key tCheck).2 = (true, none) ∧
      (Cache.Set c key v ttl tCheck tWrite).2 = none) := by
  constructor
  · unfold Cache.Set
    cases hck : c key with
    | none => simp
    | some d =>
        dsimp only
        by_cases hx : d.expiration = 0 ∨ tCheck < d.expiration
        · rw [if_pos hx]
          simp [hx]
        · rw [if_neg hx]
          simp [hx]
  · intro d hd hne heq
    constructor
    · rw [has_live c key d tCheck hd (Or.inr heq.ge)]
    · have hstale : ∀ d' : CacheItem α, c key = some d' →
          d'.expiration ≠ 0 ∧ d'.expiration ≤ tCheck := by
        intro d' hd'
        rw [hd] at hd'
        have hdd : d = d' := Option.some.inj hd'
        subst hdd
        exact ⟨hne, heq.le⟩
      rw [set_stale_succeeds c key v ttl tCheck tWrite hstale]

theorem set_keyExists_iff_strictly_live_witness :
    (Cache.Has cBoundary keyA 5).2 = (true, none) ∧
    (Cache.Set cBoundary keyA 7 100 5 5).2 = none :=
  (set_keyExists_iff_strictly_live cBoundary keyA 7 100 5 5).2 ⟨1, 5⟩
    (by decide) (by decide) (by decide)

end CacheTemplate
